import Mathlib

/-!
Verification of the ranking and relevance-feedback engine of the
clinical-trials search engine (src/src/evaluation/ranking.py,
src/src/pipeline.py, src/src/gui.py).

Scores are modelled as rationals, Python lists as Lean lists, and the
int-indexed Python slicing and indexing operations are modelled explicitly
(negative indices count from the end, out-of-range slices clamp).
Python `sorted(key, reverse=True)` is a stable descending sort, modelled by
`List.insertionSort` with the relation `fun a b => key b <= key a`, which is
stable and descending in exactly the same way.
-/

namespace CTSE

/-- Python `l[:n]` for an int `n`: a nonnegative `n` takes the first `n`
elements (clamped), a negative `n` drops the last `|n|` elements (clamped). -/
def pyTake (n : Int) (l : List α) : List α :=
  if 0 ≤ n then l.take n.toNat else l.take (l.length - (-n).toNat)

/-- Python `l[n:]` for an int `n`: a nonnegative `n` drops the first `n`
elements (clamped), a negative `n` keeps the last `|n|` elements (clamped). -/
def pyDrop (n : Int) (l : List α) : List α :=
  if 0 ≤ n then l.drop n.toNat else l.drop (l.length - (-n).toNat)

/-- Python `l[i]` for an int `i`: negative indices count from the end.
The source raises `IndexError` when the index is out of range; the model
returns `d` there, and every theorem using it stays within range. -/
def pyGetD (l : List α) (i : Int) (d : α) : α :=
  if 0 ≤ i then l.getD i.toNat d else l.getD (l.length - (-i).toNat) d

/-- Stable descending sort by a rational key: the model of Python
`sorted(xs, key=key, reverse=True)`. Ties keep their original order. -/
def sortDescBy (key : α → ℚ) (l : List α) : List α :=
  l.insertionSort (fun a b => key b ≤ key a)

/-- A candidate document as built by `Ranker.rank`:
`{docno, score, from_query}`. -/
structure Doc where
  docno : String
  score : ℚ
  from_query : String
deriving DecidableEq

/-- A ranked entry as built by `Ranker._get_ranked_list`:
`{rank, docno, score, from_query}`. -/
structure Entry where
  rank : Int
  docno : String
  score : ℚ
  from_query : String
deriving DecidableEq

/-- Forget the rank of a ranked entry, recovering the candidate document. -/
def Entry.toDoc (x : Entry) : Doc :=
  ⟨x.docno, x.score, x.from_query⟩

/-- A feedback event with feedback "+" or "-": the source reads the keys
docno and feedback of the feedback dict. -/
structure Feedback where
  docno : String
  feedback : String
deriving DecidableEq

/-- `Ranker._normalize`, applied to one of the three document lists: the
bounds are hardcoded to `max_score = 1`, `min_score = 0`; empty lists and a
degenerate range are skipped. -/
def normalize (doc_list : List Doc) : List Doc :=
  let max_score : ℚ := 1
  let min_score : ℚ := 0
  if doc_list = [] then doc_list
  else if max_score = min_score then doc_list
  else doc_list.map fun doc =>
    { doc with score := (doc.score - min_score) / (max_score - min_score) }

/-- The rank-assignment comprehension closing `Ranker._get_ranked_list`:
each document receives rank `position + 1`; here generalized to ranks
starting at `start`. -/
def assignRanks (start : Int) : List Doc → List Entry
  | [] => []
  | doc :: rest => ⟨start, doc.docno, doc.score, doc.from_query⟩ :: assignRanks (start + 1) rest

/-- `Ranker._get_ranked_list(topn, nmax)`. Note two behaviours of the
source kept verbatim: `remaining_translated_docs` is sliced from
`self.original_docs`, and the remainders are sliced from the unsorted
lists while the top slices come from sorted copies. -/
def getRankedList (original_docs translated_docs expanded_docs : List Doc)
    (topn nmax : Int) : List Entry :=
  let top_original_docs := pyTake topn (sortDescBy Doc.score original_docs)
  let top_translated_docs := pyTake topn (sortDescBy Doc.score translated_docs)
  let top_expanded_docs := pyTake topn (sortDescBy Doc.score expanded_docs)
  let remaining_original_docs := pyDrop topn original_docs
  let remaining_translated_docs := pyDrop topn original_docs
  let remaining_expanded_docs := pyDrop topn expanded_docs
  let mixed_remaining_docs :=
    remaining_original_docs ++ remaining_translated_docs ++ remaining_expanded_docs
  let sorted_mixed_remaining_docs := sortDescBy Doc.score mixed_remaining_docs
  let final_ranked_list :=
    top_original_docs ++ top_translated_docs ++ top_expanded_docs ++ sorted_mixed_remaining_docs
  assignRanks 1 (pyTake nmax final_ranked_list)

/-- `Ranker.rank`: tag the three scored lists, normalize each, drop from the
translated and expanded lists every docno present in the original list, then
fuse with `_get_ranked_list`. -/
def rank (original_docs translated_docs expanded_docs : List (String × ℚ))
    (topn nmax : Int) : List Entry :=
  let o := original_docs.map fun doc => (⟨doc.1, doc.2, "original"⟩ : Doc)
  let t := translated_docs.map fun doc => (⟨doc.1, doc.2, "translated"⟩ : Doc)
  let e := expanded_docs.map fun doc => (⟨doc.1, doc.2, "expanded"⟩ : Doc)
  let o2 := normalize o
  let t2 := normalize t
  let e2 := normalize e
  let original_docnos := o2.map Doc.docno
  let t3 := t2.filter fun doc => !(original_docnos.contains doc.docno)
  let e3 := e2.filter fun doc => !(original_docnos.contains doc.docno)
  getRankedList o2 t3 e3 topn nmax

/-- Row `i` of the similarity matrix (`similarity_matrix[i]`, a torch
tensor row turned into a list by `.tolist()`). -/
def pyRow (m : List (List ℚ)) (i : Int) : List ℚ :=
  pyGetD m i []

/-- The body of the rerank update loop for one document at position `i`:
`+` multiplies the score by `sim[idx, i]`; `-` multiplies it by the value
at Python index `-p` of the descending-sorted row, where `p` is the first
position of `sim[idx, i]` in that sorted row; any other feedback string
leaves the document unchanged (`continue`). -/
def applyFeedback (feedback : Feedback) (similarity_matrix : List (List ℚ))
    (idx i : Int) (doc : Entry) : Entry :=
  if feedback.feedback = "+" then
    { doc with score := doc.score * pyGetD (pyRow similarity_matrix idx) i 0 }
  else if feedback.feedback = "-" then
    let similarity_list := pyRow similarity_matrix idx
    let similarity_value := pyGetD similarity_list i 0
    let ordered_similarity := sortDescBy (fun x => x) similarity_list
    let similarity_position := ordered_similarity.findIdx (fun x => x == similarity_value)
    let inverse_sim_value := pyGetD ordered_similarity (-(similarity_position : Int)) 0
    { doc with score := doc.score * inverse_sim_value }
  else doc

/-- The rerank update loop
`for doc_to_update in range(selected_doc_index + 1, len(ranked_list) - 1)`,
walking the list with its position `i`; positions outside
`[idx + 1, n - 1)` are left untouched. -/
def scoreUpdateAux (feedback : Feedback) (similarity_matrix : List (List ℚ))
    (idx n : Int) : Int → List Entry → List Entry
  | _, [] => []
  | i, doc :: rest =>
    (if idx + 1 ≤ i ∧ i < n - 1 then applyFeedback feedback similarity_matrix idx i doc
     else doc) :: scoreUpdateAux feedback similarity_matrix idx n (i + 1) rest

/-- The in-place score updates performed by the rerank loop, as a new list
in the original order. -/
def scoreUpdate (ranked_list : List Entry) (idx : Int) (feedback : Feedback)
    (similarity_matrix : List (List ℚ)) : List Entry :=
  scoreUpdateAux feedback similarity_matrix idx (ranked_list.length : Int) 0 ranked_list

/-- The rank-reassignment loop closing `Ranker.rerank`: every document of
the sorted suffix has its rank field rewritten, counting up from `start`. -/
def reassignRanks (start : Int) : List Entry → List Entry
  | [] => []
  | doc :: rest => { doc with rank := start } :: reassignRanks (start + 1) rest

/-- `Ranker.rerank(ranked_list, feedback, similarity_matrix)`: find the rank
field of the first entry whose docno matches the feedback (returning the
input unchanged when there is none), update the scores of positions
`selected_doc_index + 1 .. len - 2`, sort the suffix after the selected
entry by score descending, and reassign the suffix ranks from
`selected_doc_index + 2`. -/
def rerank (ranked_list : List Entry) (feedback : Feedback)
    (similarity_matrix : List (List ℚ)) : List Entry :=
  match ranked_list.find? (fun doc => doc.docno == feedback.docno) with
  | none => ranked_list
  | some sel =>
    let selected_doc_index : Int := sel.rank - 1
    let updated := scoreUpdate ranked_list selected_doc_index feedback similarity_matrix
    let reranked_part := sortDescBy Entry.score (pyDrop (selected_doc_index + 1) updated)
    pyTake (selected_doc_index + 1) updated ++
      reassignRanks (selected_doc_index + 2) reranked_part

/-- The state of the CALLER `ranked_list` after `Ranker.rerank` returns.
The source rebinds its local name, so the caller keeps the original element
order, but the entry dicts are shared and mutated in place: the update loop
rewrites scores, and the closing loop rewrites the rank of every suffix
entry to its position in the sorted suffix. Python tells the dicts apart by
identity; the model locates each suffix entry structurally in the sorted
suffix, which is faithful whenever the suffix entries are pairwise
distinct. -/
def rerankInputAfter (ranked_list : List Entry) (feedback : Feedback)
    (similarity_matrix : List (List ℚ)) : List Entry :=
  match ranked_list.find? (fun doc => doc.docno == feedback.docno) with
  | none => ranked_list
  | some sel =>
    let selected_doc_index : Int := sel.rank - 1
    let updated := scoreUpdate ranked_list selected_doc_index feedback similarity_matrix
    let suffix_docs := pyDrop (selected_doc_index + 1) updated
    let reranked_part := sortDescBy Entry.score suffix_docs
    pyTake (selected_doc_index + 1) updated ++
      suffix_docs.map fun doc =>
        { doc with rank := selected_doc_index + 2 + (reranked_part.indexOf doc : Int) }

/-- First-occurrence deduplication with an accumulator of already seen
docnos. -/
def dedupFirstAux (seen : List String) : List String → List String
  | [] => []
  | x :: xs =>
    if seen.contains x then dedupFirstAux seen xs
    else x :: dedupFirstAux (x :: seen) xs

/-- The id-collection step of `Pipeline.rerank`: the docno of every entry
is added to a Python set, and the set is turned back into a list. A Python
set deduplicates and its iteration order is unspecified; the model fixes
first-occurrence order. The theorem about this definition depends only on
the length of the result, which is the same for every iteration order. -/
def collect_ids (ranked_list : List Entry) : List String :=
  dedupFirstAux [] (ranked_list.map Entry.docno)

/-- `Pipeline.rerank`: the similarity matrix is requested from the embedding
collaborator (here the parameter `simFn`) on `collect_ids ranked_list`, and
`Ranker.rerank` is called with it. -/
def pipeline_rerank (simFn : List String → List (List ℚ))
    (ranked_list : List Entry) (feedback : Feedback) : List Entry :=
  rerank ranked_list feedback (simFn (collect_ids ranked_list))

/-- One search state of `GUI.search_history`, holding a query, its results
and the feedback that produced them; the source stores the empty (falsy)
dict for the no-feedback case, modelled as `none`. -/
structure SearchState where
  query : String
  results : List Entry
  feedback : Option Feedback
deriving DecidableEq

/-- The per-state test of the truncate-index loop of `GUI._feedback`: the
state carries a (truthy) feedback dict whose docno equals the record docno. -/
def state_targets (d : String) (st : SearchState) : Bool :=
  match st.feedback with
  | some f => f.docno == d
  | none => false

/-- The truncate-index search loop of `GUI._feedback`: the index of the
earliest state whose feedback targets the docno, if any. -/
def find_truncate_index (d : String) : List SearchState → Option Nat
  | [] => none
  | st :: rest =>
    if state_targets d st then some 0
    else (find_truncate_index d rest).map Nat.succ

/-- The truncation step of `GUI._feedback`:
`self.search_history = self.search_history[:truncate_index]` when a prior
feedback state on the docno exists. -/
def truncate_history (hist : List SearchState) (d : String) : List SearchState :=
  match find_truncate_index d hist with
  | some i => hist.take i
  | none => hist

/-- `GUI._feedback(record, feedback_value)` followed by `GUI._rerank` at the
history level: truncate at the earliest prior feedback state on the docno,
then, when the toggle value is 1 (feedback "-") or 2 (feedback "+"), rerank
the results of the last remaining state and append the new state. The source
reads `search_history[-1]` and would raise on an empty history; the model
returns the truncated history there. -/
def gui_feedback (simFn : List String → List (List ℚ)) (hist : List SearchState)
    (record_docno : String) (feedback_value : Option Int) : List SearchState :=
  let hist2 := truncate_history hist record_docno
  if feedback_value = some 1 ∨ feedback_value = some 2 then
    let fb : Feedback := ⟨record_docno, if feedback_value = some 1 then "-" else "+"⟩
    match hist2.getLast? with
    | some last_state =>
      hist2 ++ [⟨last_state.query, pipeline_rerank simFn last_state.results fb, some fb⟩]
    | none => hist2
  else hist2

/-- `GUI.search(query, reset)` at the history level: a blank query leaves the
history alone; with `reset` the history is cleared and the single state built
by `GUI._rank` (whose results `rank_result` come from the retrieval pipeline)
is appended; without `reset` the history is unchanged. -/
def gui_search (hist : List SearchState) (query : String) (reset : Bool)
    (rank_result : List Entry) : List SearchState :=
  let q := query.trim
  if q = "" then hist
  else if reset then ([] : List SearchState) ++ [⟨q, rank_result, none⟩]
  else hist

/-- The ranked list shared by Scenario B and Scenario C of the spec:
docnos A, B, C with scores 1.0, 0.6, 0.4 and ranks 1, 2, 3. -/
def scenario_ranked : List Entry :=
  [⟨1, "A", 1, "q"⟩, ⟨2, "B", 6/10, "q"⟩, ⟨3, "C", 4/10, "q"⟩]

/-- A symmetric unit-diagonal similarity matrix whose first row is the
`sim[0] = [1.0, 0.5, 0.9]` of Scenario B and Scenario C. -/
def scenario_sim : List (List ℚ) :=
  [[1, 1/2, 9/10], [1/2, 1, 7/10], [9/10, 7/10, 1]]

/-- The `topn`-quota slice of a candidate list: its stable descending sort,
cut to the first `topn` entries (the `top_..._docs` values of
`Ranker._get_ranked_list`). -/
def topSlice (topn : Int) (l : List Doc) : List Doc :=
  pyTake topn (sortDescBy Doc.score l)

instance (key : α → ℚ) : IsTotal α (fun a b => key b ≤ key a) :=
  ⟨fun x y => le_total (key y) (key x)⟩

instance (key : α → ℚ) : IsTrans α (fun a b => key b ≤ key a) :=
  ⟨fun _ _ _ h1 h2 => le_trans h2 h1⟩

/-- C10: with the hardcoded bounds `max_score = 1`, `min_score = 0`,
`Ranker._normalize` maps every score to `(score - 0) / (1 - 0) = score`, so
normalization is the identity on every document list. -/
theorem normalize_noop (doc_list : List Doc) : normalize doc_list = doc_list := by
  unfold normalize
  split
  · rfl
  · rw [if_neg (by norm_num)]
    have h : (fun doc : Doc =>
        { doc with score := (doc.score - (0 : ℚ)) / ((1 : ℚ) - 0) }) = id := by
      funext doc
      simp [sub_zero, div_one]
    rw [h, List.map_id]

/-- C2 (code evaluated at Scenario B): with ranked list A(1.0), B(0.6),
C(0.4), feedback `{A, +}` and `sim[0] = [1.0, 0.5, 0.9]`, the source rescores
only position 1 — the loop `range(selected+1, len-1)` excludes the final
entry — so C keeps score 0.4 instead of the claimed 0.36, giving
[A(1.0), C(0.4), B(0.3)] rather than the claimed [A(1.0), C(0.36), B(0.30)]. -/
theorem rerank_positive_scenarioB :
    rerank scenario_ranked ⟨"A", "+"⟩ scenario_sim =
      [⟨1, "A", 1, "q"⟩, ⟨2, "C", 4/10, "q"⟩, ⟨3, "B", 3/10, "q"⟩] ∧
    rerank scenario_ranked ⟨"A", "+"⟩ scenario_sim ≠
      [⟨1, "A", 1, "q"⟩, ⟨2, "C", 36/100, "q"⟩, ⟨3, "B", 3/10, "q"⟩] := by
  norm_num [rerank, scenario_ranked, scenario_sim, List.find?, scoreUpdate,
    scoreUpdateAux, applyFeedback, pyRow, pyGetD, pyTake, pyDrop, sortDescBy,
    reassignRanks, List.findIdx_cons, cond_eq_if, beq_iff_eq,
    List.getD_cons_zero, List.getD_cons_succ, Entry.mk.injEq]

/-- C1 (code evaluated at Scenario C): with the Scenario B inputs and
feedback `{A, -}`, the source multiplies B by `ordered[-p] = ordered[1] = 0.9`
(not the claimed mirror `ordered[len-1-p] = ordered[0] = 1.0`), giving
B = 0.54, and never rescores the final entry C, which keeps 0.4; the result
is [A(1.0), B(0.54), C(0.4)], not the claimed [A(1.0), B(0.6), C(0.36)]. -/
theorem rerank_negative_scenarioC :
    rerank scenario_ranked ⟨"A", "-"⟩ scenario_sim =
      [⟨1, "A", 1, "q"⟩, ⟨2, "B", 27/50, "q"⟩, ⟨3, "C", 4/10, "q"⟩] ∧
    rerank scenario_ranked ⟨"A", "-"⟩ scenario_sim ≠
      [⟨1, "A", 1, "q"⟩, ⟨2, "B", 6/10, "q"⟩, ⟨3, "C", 36/100, "q"⟩] := by
  have hs : ¬ ("-" : String) = "+" := by decide
  have ht : Int.toNat 2 = 2 := by decide
  norm_num [rerank, scenario_ranked, scenario_sim, List.find?, scoreUpdate,
    scoreUpdateAux, applyFeedback, pyRow, pyGetD, pyTake, pyDrop, sortDescBy,
    reassignRanks, List.findIdx_cons, cond_eq_if, beq_iff_eq, hs, ht,
    List.getD_cons_zero, List.getD_cons_succ, List.getElem_cons_zero,
    List.getElem_cons_succ, Entry.mk.injEq]

/-- C3 (code evaluated at a failing input): with empty original and expanded
lists, two translated documents, `topn = 1`, `nmax = 10`, the fused output
has one entry, not `min(10, 0 + 2 + 0) = 2`: the translated remainder is
sliced from the (empty) original list. -/
theorem fuse_cardinality_failure :
    (getRankedList [] [⟨"T1", 9/10, "translated"⟩, ⟨"T2", 4/5, "translated"⟩]
        [] 1 10).length = 1 ∧
    min 10 (([] : List Doc).length +
      ([⟨"T1", 9/10, "translated"⟩, ⟨"T2", 4/5, "translated"⟩] : List Doc).length +
      ([] : List Doc).length) = 2 := by
  norm_num [getRankedList, pyTake, pyDrop, sortDescBy, assignRanks]

/-- C4 (code evaluated at a failing input): the fusion of
original = [X(0.1), Y(0.9)] with `topn = 1`, `nmax = 5` (a legal
configuration) yields the reachable ranked list [Y, Y, Y]; on it,
`Pipeline.rerank` hands the embedding collaborator `list(set(docnos))`,
which has a single element, while `Ranker.rerank` indexes the resulting
matrix positionally over all three list positions — the matrix is not
computed over the docnos of the list in the list order. -/
theorem sim_pairing_violation :
    getRankedList [⟨"X", 1/10, "original"⟩, ⟨"Y", 9/10, "original"⟩] [] [] 1 5 =
      [⟨1, "Y", 9/10, "original"⟩, ⟨2, "Y", 9/10, "original"⟩,
        ⟨3, "Y", 9/10, "original"⟩] ∧
    collect_ids [⟨1, "Y", 9/10, "original"⟩, ⟨2, "Y", 9/10, "original"⟩,
        ⟨3, "Y", 9/10, "original"⟩] = ["Y"] ∧
    (["Y"] : List String) ≠
      ([⟨1, "Y", 9/10, "original"⟩, ⟨2, "Y", 9/10, "original"⟩,
        ⟨3, "Y", 9/10, "original"⟩] : List Entry).map Entry.docno := by
  refine ⟨?_, ?_, ?_⟩
  · norm_num [getRankedList, pyTake, pyDrop, sortDescBy, assignRanks, Entry.mk.injEq]
  · norm_num [collect_ids, dedupFirstAux, Entry.docno]
  · simp [Entry.docno]

/-- C6 (counterexample): a fuse call with `topn = 0` is not rejected: it
runs to completion and produces a nonempty output (with the quota slices
empty, the whole original list is merged twice through the remainder path). -/
theorem config_not_rejected :
    getRankedList [⟨"A", 1, "original"⟩] [] [] 0 5 =
      [⟨1, "A", 1, "original"⟩, ⟨2, "A", 1, "original"⟩] ∧
    ([⟨1, "A", 1, "original"⟩, ⟨2, "A", 1, "original"⟩] : List Entry) ≠ [] := by
  refine ⟨?_, by simp⟩
  norm_num [getRankedList, pyTake, pyDrop, sortDescBy, assignRanks, Entry.mk.injEq]

/-- C6 (amended): `topn` and `nmax` are not validated; a call with
`topn = 0` is accepted and computes the dense-ranked `nmax`-truncation of
the descending sort of `original ++ original ++ expanded` (the quota slices
are empty and every remainder is a whole list, the translated one read from
the original list). -/
theorem fuse_topn_zero (o t e : List Doc) (nmax : Int) :
    getRankedList o t e 0 nmax =
      assignRanks 1 (pyTake nmax (sortDescBy Doc.score (o ++ o ++ e))) := by
  simp [getRankedList, pyTake, pyDrop]

/-- C7 (counterexample): `Ranker.rerank` mutates the entries of the list the
caller passed in: after the Scenario B call, the entries of the input list
(in their original, unreordered positions) carry the updated score of B and
the reassigned ranks of B and C, so the input list no longer holds its
original scores and ranks. -/
theorem rerank_mutates_input :
    rerankInputAfter scenario_ranked ⟨"A", "+"⟩ scenario_sim =
      [⟨1, "A", 1, "q"⟩, ⟨3, "B", 3/10, "q"⟩, ⟨2, "C", 4/10, "q"⟩] ∧
    rerankInputAfter scenario_ranked ⟨"A", "+"⟩ scenario_sim ≠ scenario_ranked := by
  norm_num [rerankInputAfter, scenario_ranked, scenario_sim, List.find?, scoreUpdate,
    scoreUpdateAux, applyFeedback, pyRow, pyGetD, pyTake, pyDrop, sortDescBy,
    List.indexOf_cons, List.findIdx_cons, cond_eq_if, beq_iff_eq,
    List.getD_cons_zero, List.getD_cons_succ, Entry.mk.injEq]

theorem sortDescBy_perm (key : α → ℚ) (l : List α) : List.Perm (sortDescBy key l) l :=
  List.perm_insertionSort _ l

theorem sortDescBy_pairwise (key : α → ℚ) (l : List α) :
    (sortDescBy key l).Pairwise (fun a b => key b ≤ key a) :=
  List.sorted_insertionSort _ l

theorem assignRanks_map_toDoc (start : Int) (l : List Doc) :
    (assignRanks start l).map Entry.toDoc = l := by
  induction l generalizing start with
  | nil => rfl
  | cons d rest ih => simp [assignRanks, Entry.toDoc, ih]

theorem take_of_take_append (n : ℕ) (S R : List α) :
    (List.take n (S ++ R)).take S.length = S.take n := by
  rcases le_total n S.length with h | h
  · rw [List.take_append_of_le_length h, List.take_take]
    have hm : S.length ⊓ n = n := by omega
    rw [hm]
  · rw [List.take_take]
    have hm : S.length ⊓ n = S.length := by omega
    rw [hm, List.take_left, List.take_of_length_le h]

/-- C5: fusion quota. The head of the fused output (its first
`|topSlice o| + |topSlice t| + |topSlice e|` entries) is the
`nmax`-truncated concatenation of the three quota slices: the stable
descending sort of the original list cut to `topn`, then the translated
slice, then the expanded slice; and each sorted copy is a permutation of
its list, pairwise descending on scores. -/
theorem fuse_quota (o t e : List Doc) (topn nmax : Int)
    (_ht : 0 ≤ topn) (hn : 0 ≤ nmax) :
    ((getRankedList o t e topn nmax).map Entry.toDoc).take
        (topSlice topn o ++ topSlice topn t ++ topSlice topn e).length =
      (topSlice topn o ++ topSlice topn t ++ topSlice topn e).take nmax.toNat ∧
    List.Perm (sortDescBy Doc.score o) o ∧
    (sortDescBy Doc.score o).Pairwise (fun a b => b.score ≤ a.score) ∧
    List.Perm (sortDescBy Doc.score t) t ∧
    (sortDescBy Doc.score t).Pairwise (fun a b => b.score ≤ a.score) ∧
    List.Perm (sortDescBy Doc.score e) e ∧
    (sortDescBy Doc.score e).Pairwise (fun a b => b.score ≤ a.score) := by
  refine ⟨?_, sortDescBy_perm _ o, sortDescBy_pairwise _ o,
    sortDescBy_perm _ t, sortDescBy_pairwise _ t,
    sortDescBy_perm _ e, sortDescBy_pairwise _ e⟩
  have hmap : (getRankedList o t e topn nmax).map Entry.toDoc =
      List.take nmax.toNat
        ((topSlice topn o ++ topSlice topn t ++ topSlice topn e) ++
          sortDescBy Doc.score (pyDrop topn o ++ pyDrop topn o ++ pyDrop topn e)) := by
    simp only [getRankedList, assignRanks_map_toDoc, topSlice, pyTake, if_pos hn,
      List.append_assoc]
  rw [hmap, take_of_take_append]

theorem find?_eq_of_first (p : α → Bool) :
    ∀ (l : List α) (i : ℕ) (hi : i < l.length),
      p (l.get ⟨i, hi⟩) = true →
      (∀ j (hj : j < i), p (l.get ⟨j, hj.trans hi⟩) = false) →
      l.find? p = some (l.get ⟨i, hi⟩)
  | [], i, hi, _, _ => absurd hi (by simp)
  | a :: l, 0, hi, hhit, _ => List.find?_cons_of_pos l hhit
  | a :: l, i + 1, hi, hhit, hmiss => by
    have ha : p a = false := hmiss 0 (Nat.succ_pos i)
    rw [List.find?_cons_of_neg l (by simp [ha])]
    exact find?_eq_of_first p l i (Nat.lt_of_succ_lt_succ hi) hhit
      (fun j hj => hmiss (j + 1) (Nat.succ_lt_succ hj))

theorem scoreUpdateAux_take (f : Feedback) (sim : List (List ℚ)) (idx n : Int) :
    ∀ (l : List Entry) (i0 : Int) (k : ℕ), i0 + (k : Int) ≤ idx + 1 →
      (scoreUpdateAux f sim idx n i0 l).take k = l.take k
  | [], i0, k, _ => by simp [scoreUpdateAux]
  | d :: rest, i0, 0, _ => by simp
  | d :: rest, i0, k + 1, h => by
    have hcond : ¬(idx + 1 ≤ i0 ∧ i0 < n - 1) := by
      intro hc
      have : (0 : Int) ≤ (k : Int) := Int.ofNat_nonneg k
      omega
    simp only [scoreUpdateAux, if_neg hcond, List.take_succ_cons]
    rw [scoreUpdateAux_take f sim idx n rest (i0 + 1) k (by push_cast at h ⊢; omega)]

theorem scoreUpdateAux_length (f : Feedback) (sim : List (List ℚ)) (idx n : Int) :
    ∀ (l : List Entry) (i0 : Int), (scoreUpdateAux f sim idx n i0 l).length = l.length
  | [], _ => rfl
  | d :: rest, i0 => by
    simp [scoreUpdateAux, scoreUpdateAux_length f sim idx n rest (i0 + 1)]

/-- C8: rerank prefix stability. For a well-formed ranked list (rank fields
equal position + 1) whose first entry matching the feedback docno sits at
0-based position `selected`, every entry of the rerank output at a position
at most `selected` equals the corresponding input entry — same docno, score
and rank. -/
theorem rerank_front_stable (L : List Entry) (f : Feedback) (sim : List (List ℚ))
    (selected : ℕ) (hsel : selected < L.length)
    (hwf : ∀ k (hk : k < L.length), (L.get ⟨k, hk⟩).rank = (k : Int) + 1)
    (hhit : (L.get ⟨selected, hsel⟩).docno = f.docno)
    (hmiss : ∀ j (hj : j < selected), (L.get ⟨j, hj.trans hsel⟩).docno ≠ f.docno) :
    ∀ i, i ≤ selected → (rerank L f sim)[i]? = L[i]? := by
  intro i hi
  have hfind : L.find? (fun d => d.docno == f.docno) = some (L.get ⟨selected, hsel⟩) := by
    apply find?_eq_of_first
    · exact beq_iff_eq.mpr hhit
    · intro j hj
      exact beq_eq_false_iff_ne.mpr (hmiss j hj)
  have hrank : (L.get ⟨selected, hsel⟩).rank = (selected : Int) + 1 := hwf selected hsel
  rw [rerank, hfind]
  simp only [hrank, add_sub_cancel_right]
  have htoNat : ((selected : Int) + 1).toNat = selected + 1 := by omega
  have htake : pyTake ((selected : Int) + 1)
      (scoreUpdate L (selected : Int) f sim) = List.take (selected + 1) L := by
    rw [pyTake, if_pos (by omega), htoNat]
    apply scoreUpdateAux_take
    push_cast
    omega
  rw [htake, List.getElem?_append_left, List.getElem?_take_of_lt (by omega)]
  simp only [List.length_take]
  omega

theorem applyFeedback_docno (f : Feedback) (sim : List (List ℚ)) (idx i : Int)
    (doc : Entry) : (applyFeedback f sim idx i doc).docno = doc.docno := by
  rw [applyFeedback]
  split
  · rfl
  split
  · rfl
  · rfl

theorem scoreUpdateAux_map_docno (f : Feedback) (sim : List (List ℚ)) (idx n : Int) :
    ∀ (l : List Entry) (i0 : Int),
      (scoreUpdateAux f sim idx n i0 l).map Entry.docno = l.map Entry.docno
  | [], _ => rfl
  | d :: rest, i0 => by
    simp only [scoreUpdateAux, List.map_cons,
      scoreUpdateAux_map_docno f sim idx n rest (i0 + 1)]
    congr 1
    split
    · exact applyFeedback_docno f sim idx i0 d
    · rfl

theorem pyTake_append_pyDrop (n : Int) (l : List α) : pyTake n l ++ pyDrop n l = l := by
  by_cases h : 0 ≤ n <;> simp [pyTake, pyDrop, h, List.take_append_drop]

/-- C7 (amended): the frame of the in-place mutation `Ranker.rerank`
performs on its input. After the call the CALLER list still holds the same
docnos in the same positions (it is never reordered), and every entry at a
position at most `selected` is entirely untouched; the entries after
`selected` are however rescored and reranked in place, so the input is not
left unchanged. -/
theorem rerank_input_frame (L : List Entry) (f : Feedback) (sim : List (List ℚ))
    (selected : ℕ) (hsel : selected < L.length)
    (hwf : ∀ k (hk : k < L.length), (L.get ⟨k, hk⟩).rank = (k : Int) + 1)
    (hhit : (L.get ⟨selected, hsel⟩).docno = f.docno)
    (hmiss : ∀ j (hj : j < selected), (L.get ⟨j, hj.trans hsel⟩).docno ≠ f.docno) :
    (rerankInputAfter L f sim).map Entry.docno = L.map Entry.docno ∧
    pyTake ((selected : Int) + 1) (rerankInputAfter L f sim) =
      pyTake ((selected : Int) + 1) L := by
  have hfind : L.find? (fun d => d.docno == f.docno) = some (L.get ⟨selected, hsel⟩) := by
    apply find?_eq_of_first
    · exact beq_iff_eq.mpr hhit
    · intro j hj
      exact beq_eq_false_iff_ne.mpr (hmiss j hj)
  have hrank : (L.get ⟨selected, hsel⟩).rank = (selected : Int) + 1 := hwf selected hsel
  rw [rerankInputAfter, hfind]
  simp only [hrank, add_sub_cancel_right]
  have htoNat : ((selected : Int) + 1).toNat = selected + 1 := by omega
  have hUlen : (scoreUpdate L (selected : Int) f sim).length = L.length := by
    exact scoreUpdateAux_length f sim _ _ L 0
  have htakeU : List.take (selected + 1) (scoreUpdate L (selected : Int) f sim) =
      List.take (selected + 1) L := by
    apply scoreUpdateAux_take
    push_cast
    omega
  constructor
  · rw [List.map_append, List.map_map]
    have hg : (Entry.docno ∘ fun doc =>
        { doc with rank := (selected : Int) + 2 +
            ((sortDescBy Entry.score
              (pyDrop ((selected : Int) + 1) (scoreUpdate L (selected : Int) f sim))).indexOf
                doc : Int) }) = Entry.docno := by
      funext doc
      rfl
    rw [hg, ← List.map_append, pyTake_append_pyDrop]
    exact scoreUpdateAux_map_docno f sim _ _ L 0
  · rw [pyTake, if_pos (by omega), htoNat, pyTake, if_pos (by omega), htoNat,
      pyTake, if_pos (by omega), htoNat]
    rw [List.take_append_of_le_length, List.take_take]
    · rw [Nat.min_self, htakeU]
    · rw [List.length_take, hUlen]
      omega

theorem find_truncate_index_eq (d : String) :
    ∀ (hist : List SearchState) (i : ℕ) (hi : i < hist.length),
      state_targets d (hist.get ⟨i, hi⟩) = true →
      (∀ j (hj : j < i), state_targets d (hist.get ⟨j, hj.trans hi⟩) = false) →
      find_truncate_index d hist = some i
  | [], i, hi, _, _ => absurd hi (by simp)
  | st :: rest, 0, hi, hhit, _ => by
    rw [find_truncate_index, if_pos (show state_targets d st = true from hhit)]
  | st :: rest, i + 1, hi, hhit, hmiss => by
    have ha : state_targets d st = false := hmiss 0 (Nat.succ_pos i)
    rw [find_truncate_index, if_neg (by simp [ha]),
      find_truncate_index_eq d rest i (Nat.lt_of_succ_lt_succ hi) hhit
        (fun j hj => hmiss (j + 1) (Nat.succ_lt_succ hj))]
    rfl

/-- C9: feedback revision truncates the session history to the states
strictly before the earliest state whose feedback targets the docno, and
then appends the single new rerank state built from the last remaining
state; a fresh search with reset clears the history entirely before
appending its result. -/
theorem session_truncation (simFn : List String → List (List ℚ))
    (hist : List SearchState) (d : String) (i : ℕ) (fv : Int) (last : SearchState)
    (hi : i < hist.length)
    (hhit : state_targets d (hist.get ⟨i, hi⟩) = true)
    (hmiss : ∀ j (hj : j < i), state_targets d (hist.get ⟨j, hj.trans hi⟩) = false)
    (hfv : fv = 1 ∨ fv = 2)
    (hlast : (hist.take i).getLast? = some last) :
    gui_feedback simFn hist d (some fv) =
      hist.take i ++
        [⟨last.query,
          pipeline_rerank simFn last.results ⟨d, if fv = 1 then "-" else "+"⟩,
          some ⟨d, if fv = 1 then "-" else "+"⟩⟩] ∧
    ∀ (h2 : List SearchState) (q : String) (res : List Entry),
      q.trim ≠ "" → gui_search h2 q true res = [⟨q.trim, res, none⟩] := by
  constructor
  · have htr : truncate_history hist d = hist.take i := by
      rw [truncate_history, find_truncate_index_eq d hist i hi hhit hmiss]
    have hcond : (some fv = some 1 ∨ some fv = some 2) := by
      rcases hfv with h | h
      · exact Or.inl (by rw [h])
      · exact Or.inr (by rw [h])
    rw [gui_feedback]
    simp only [htr, hlast, Option.some.injEq]
    rw [if_pos hfv]
  · intro h2 q res hq
    rw [gui_search]
    simp [hq]

theorem fuse_quota_witness :
    (0 : Int) ≤ 1 ∧ (0 : Int) ≤ 3 ∧
    (((getRankedList [⟨"A", 9/10, "original"⟩, ⟨"B", 5/10, "original"⟩]
          [⟨"C", 8/10, "translated"⟩] [] 1 3).map Entry.toDoc).take
        (topSlice 1 [⟨"A", 9/10, "original"⟩, ⟨"B", 5/10, "original"⟩] ++
          topSlice 1 [⟨"C", 8/10, "translated"⟩] ++ topSlice 1 []).length =
      (topSlice 1 [⟨"A", 9/10, "original"⟩, ⟨"B", 5/10, "original"⟩] ++
        topSlice 1 [⟨"C", 8/10, "translated"⟩] ++ topSlice 1 []).take (3 : Int).toNat ∧
      List.Perm (sortDescBy Doc.score [⟨"A", 9/10, "original"⟩, ⟨"B", 5/10, "original"⟩])
        [⟨"A", 9/10, "original"⟩, ⟨"B", 5/10, "original"⟩] ∧
      (sortDescBy Doc.score [⟨"A", 9/10, "original"⟩, ⟨"B", 5/10, "original"⟩]).Pairwise
        (fun a b => b.score ≤ a.score) ∧
      List.Perm (sortDescBy Doc.score [⟨"C", 8/10, "translated"⟩])
        [⟨"C", 8/10, "translated"⟩] ∧
      (sortDescBy Doc.score [⟨"C", 8/10, "translated"⟩]).Pairwise
        (fun a b => b.score ≤ a.score) ∧
      List.Perm (sortDescBy Doc.score []) [] ∧
      (sortDescBy Doc.score []).Pairwise (fun a b => b.score ≤ a.score)) :=
  ⟨by norm_num, by norm_num,
    fuse_quota [⟨"A", 9/10, "original"⟩, ⟨"B", 5/10, "original"⟩]
      [⟨"C", 8/10, "translated"⟩] [] 1 3 (by norm_num) (by norm_num)⟩

theorem rerank_front_stable_witness :
    (rerank scenario_ranked ⟨"A", "+"⟩ scenario_sim)[0]? = scenario_ranked[0]? :=
  rerank_front_stable scenario_ranked ⟨"A", "+"⟩ scenario_sim 0 (by decide)
    (by decide) (by decide) (by decide) 0 (le_refl 0)

theorem rerank_input_frame_witness :
    (rerankInputAfter scenario_ranked ⟨"A", "+"⟩ scenario_sim).map Entry.docno =
      scenario_ranked.map Entry.docno ∧
    pyTake (((0 : ℕ) : Int) + 1) (rerankInputAfter scenario_ranked ⟨"A", "+"⟩ scenario_sim) =
      pyTake (((0 : ℕ) : Int) + 1) scenario_ranked :=
  rerank_input_frame scenario_ranked ⟨"A", "+"⟩ scenario_sim 0 (by decide)
    (by decide) (by decide) (by decide)

theorem session_truncation_witness :
    gui_feedback (fun _ => scenario_sim)
        [⟨"q", scenario_ranked, none⟩, ⟨"q", scenario_ranked, some ⟨"D", "+"⟩⟩]
        "D" (some 2) =
      ([⟨"q", scenario_ranked, none⟩, ⟨"q", scenario_ranked, some ⟨"D", "+"⟩⟩] :
          List SearchState).take 1 ++
        [⟨(⟨"q", scenario_ranked, none⟩ : SearchState).query,
          pipeline_rerank (fun _ => scenario_sim)
            (⟨"q", scenario_ranked, none⟩ : SearchState).results
            ⟨"D", if (2 : Int) = 1 then "-" else "+"⟩,
          some ⟨"D", if (2 : Int) = 1 then "-" else "+"⟩⟩] ∧
    ∀ (h2 : List SearchState) (q : String) (res : List Entry),
      q.trim ≠ "" → gui_search h2 q true res = [⟨q.trim, res, none⟩] :=
  session_truncation (fun _ => scenario_sim)
    [⟨"q", scenario_ranked, none⟩, ⟨"q", scenario_ranked, some ⟨"D", "+"⟩⟩]
    "D" 1 2 ⟨"q", scenario_ranked, none⟩ (by decide) (by decide) (by decide)
    (by decide) rfl


end CTSE
